import Mathlib

/-!
Verification of the rendergit-lite file-triage and selection model.

This file gives a shallow embedding, in Lean 4, of the core of
`rendergit.py`: the per-file triage classifier (`decide_file` together with
its helpers `is_bloat` and `looks_binary`), the interactive folder/file tree
builder (`build_folder_tree`), and the client-side selection model and export
serializer that the generated page's script implements (`updateSelection`,
`updateLLMText`, `selectAll`, `deselectAll`, `filterByExtension`,
`toggleTests`, the folder-checkbox change listener, and the file-checkbox
change listener).

Python strings are modelled as Lean `String`; the Python string operations
used by the source (`split`, `join`, `rstrip`, `startsWith`/`endsWith`,
substring containment, `lower`) are re-implemented over `String.data`
character lists so that every definition evaluates inside the kernel.
File-system effects are passed explicitly: the outcome of `path.stat()` is a
`StatResult` argument and the outcome of opening/reading the first 8 KiB is a
`ReadResult` argument, with the uncaught-exception paths of the Python code
modelled as `Except` errors.
-/

namespace Rendergit

/-! ## Python string primitives -/

/-- Code-point lexicographic strict comparison on character lists; this is
exactly Python's `<` on `str` (restricted to the characters in play). -/
def lexLt : List Char → List Char → Bool
  | [], [] => false
  | [], _ :: _ => true
  | _ :: _, [] => false
  | a :: as, b :: bs =>
    if a.toNat < b.toNat then true
    else if b.toNat < a.toNat then false
    else lexLt as bs

/-- Python `s <= t` on strings (used to model the ascending order produced by
`sorted`). -/
def strLe (s t : String) : Bool := !(lexLt t.data s.data)

/-- Helper for `splitPath`: accumulates the current segment (reversed). -/
def splitSeg : List Char → List Char → List String
  | [], acc => [String.mk acc.reverse]
  | c :: rest, acc =>
    if c == '/' then String.mk acc.reverse :: splitSeg rest []
    else splitSeg rest (c :: acc)

/-- Python `s.split("/")`: e.g. `"" ↦ [""]`, `"a/b" ↦ ["a","b"]`,
`"a//b" ↦ ["a","","b"]`. -/
def splitPath (s : String) : List String := splitSeg s.data []

/-- Python `"/".join(xs)`. -/
def joinSlash : List String → String
  | [] => ""
  | [x] => x
  | x :: xs => x ++ "/" ++ joinSlash xs

/-- Python `os.path.basename(rel)` for slash-separated relative paths, which
is also `rel.split("/")[-1]`. -/
def basename (rel : String) : String := (splitPath rel).getLastD ""

/-- Python `"/".join(rel.split("/")[:-1])`: the slash-joined parent prefix
of a relative path. -/
def parentOf (rel : String) : String := joinSlash ((splitPath rel).dropLast)

/-- Python `s.rstrip("/")`. -/
def rstripSlash (s : String) : String :=
  String.mk ((s.data.reverse.dropWhile (fun c => c == '/')).reverse)

/-- Bool test for `needle` occurring as a contiguous run of `hay`; this is
Python's `needle in hay` on strings. -/
def infixOfList (needle : List Char) : List Char → Bool
  | [] => needle.isEmpty
  | c :: rest => needle.isPrefixOf (c :: rest) || infixOfList needle rest

/-- Python `hay.__contains__(needle)` (the `in` operator) on strings. -/
def strContains (hay needle : String) : Bool := infixOfList needle.data hay.data

/-- Python `s.startswith(p)`. -/
def strStartsWith (s p : String) : Bool := p.data.isPrefixOf s.data

/-- Python `s.endswith(p)`. -/
def strEndsWith (s p : String) : Bool := p.data.isSuffixOf s.data

/-- ASCII lower-casing of one character; all extensions compared by the
source are ASCII, so this models Python `str.lower` on the strings in play. -/
def lowerChar (c : Char) : Char :=
  if 65 ≤ c.toNat ∧ c.toNat ≤ 90 then Char.ofNat (c.toNat + 32) else c

/-- Python `s.lower()` (ASCII range). -/
def strLower (s : String) : String := String.mk (s.data.map lowerChar)

/-- Index of the last occurrence of `c` in `cs` (Python `str.rfind`),
`none` when absent. -/
def rfindIdx (cs : List Char) (c : Char) : Option Nat :=
  ((List.range cs.length).filter (fun i => cs.getD i ' ' == c)).getLast?

/-- Python `pathlib.PurePath(rel).suffix`: the extension of the final
component, following the CPython implementation
(`i = name.rfind('.'); return name[i:] if 0 < i < len(name) - 1 else ''`). -/
def pathSuffix (rel : String) : String :=
  let name := basename rel
  match rfindIdx name.data '.' with
  | some i =>
    if 0 < i ∧ i < name.data.length - 1 then String.mk (name.data.drop i) else ""
  | none => ""

/-! ## Classifier (`decide_file` and helpers) -/

/-- The `BLOAT_PATTERNS` set of `rendergit.py`. -/
def BLOAT_PATTERNS : List String :=
  ["package-lock.json", "yarn.lock", "poetry.lock", "Cargo.lock",
   "pnpm-lock.yaml", "Gemfile.lock", "composer.lock", "Pipfile.lock", "go.sum"]

/-- The `BLOAT_DIRS` set of `rendergit.py`. -/
def BLOAT_DIRS : List String :=
  ["node_modules", ".venv", "venv", "__pycache__", "dist", "build",
   ".next", ".nuxt", "target", "out", ".gradle", ".cache"]

/-- The `BINARY_EXTENSIONS` set of `rendergit.py`. -/
def BINARY_EXTENSIONS : List String :=
  [".png", ".jpg", ".jpeg", ".gif", ".webp", ".bmp", ".svg", ".ico",
   ".pdf", ".zip", ".tar", ".gz", ".bz2", ".xz", ".7z", ".rar",
   ".mp3", ".mp4", ".mov", ".avi", ".mkv", ".wav", ".ogg", ".flac",
   ".ttf", ".otf", ".eot", ".woff", ".woff2",
   ".so", ".dll", ".dylib", ".class", ".jar", ".exe", ".bin"]

/-- Outcome of the `path.stat()` call in `decide_file`: success with a byte
size, a `FileNotFoundError`, or any other `OSError` kind of failure. -/
inductive StatResult where
  | found (size : Nat)
  | fileNotFound
  | osError
deriving DecidableEq

/-- The `size` computation of `decide_file`:
`try: size = path.stat().st_size except FileNotFoundError: size = 0`.
Only `FileNotFoundError` is caught; any other stat failure propagates as an
uncaught exception, modelled as `Except.error`. -/
def sizeAfterStat : StatResult → Except Unit Nat
  | .found n => .ok n
  | .fileNotFound => .ok 0
  | .osError => .error ()

/-- Outcome of `path.open("rb")` followed by `f.read(8192)` in
`looks_binary`: the chunk of bytes actually read, or any exception. -/
inductive ReadResult where
  | ok (chunk : List Nat)
  | err
deriving DecidableEq

/-- Byte in the UTF-8 continuation range `0x80..0xBF`. -/
def utf8Cont (b : Nat) : Bool := 128 ≤ b && b ≤ 191

/-- Validity of a byte list under Python's strict UTF-8 decoder
(`chunk.decode("utf-8")` succeeding): rejects stray continuation bytes,
overlong encodings, surrogates, code points above U+10FFFF, and sequences
truncated at the end of the chunk. -/
def utf8Valid : List Nat → Bool
  | [] => true
  | b :: rest =>
    if b ≤ 127 then utf8Valid rest
    else if 194 ≤ b && b ≤ 223 then
      match rest with
      | b1 :: rest2 => utf8Cont b1 && utf8Valid rest2
      | [] => false
    else if b == 224 then
      match rest with
      | b1 :: b2 :: rest2 => (160 ≤ b1 && b1 ≤ 191) && utf8Cont b2 && utf8Valid rest2
      | _ => false
    else if (225 ≤ b && b ≤ 236) || b == 238 || b == 239 then
      match rest with
      | b1 :: b2 :: rest2 => utf8Cont b1 && utf8Cont b2 && utf8Valid rest2
      | _ => false
    else if b == 237 then
      match rest with
      | b1 :: b2 :: rest2 => (128 ≤ b1 && b1 ≤ 159) && utf8Cont b2 && utf8Valid rest2
      | _ => false
    else if b == 240 then
      match rest with
      | b1 :: b2 :: b3 :: rest2 =>
        (144 ≤ b1 && b1 ≤ 191) && utf8Cont b2 && utf8Cont b3 && utf8Valid rest2
      | _ => false
    else if 241 ≤ b && b ≤ 243 then
      match rest with
      | b1 :: b2 :: b3 :: rest2 =>
        utf8Cont b1 && utf8Cont b2 && utf8Cont b3 && utf8Valid rest2
      | _ => false
    else if b == 244 then
      match rest with
      | b1 :: b2 :: b3 :: rest2 =>
        (128 ≤ b1 && b1 ≤ 143) && utf8Cont b2 && utf8Cont b3 && utf8Valid rest2
      | _ => false
    else false

/-- `looks_binary` of `rendergit.py`, with the file-system effects passed in:
`ext` is `path.suffix.lower()` and `r` is the outcome of opening the file and
reading its first 8192 bytes.  A known binary extension is binary without
reading; a read failure of any kind is binary; otherwise a NUL byte or a
UTF-8 decode failure in the chunk makes it binary. -/
def looks_binary (ext : String) (r : ReadResult) : Bool :=
  if BINARY_EXTENSIONS.contains ext then true
  else
    match r with
    | .ok chunk =>
      if chunk.contains 0 then true
      else if utf8Valid chunk then false
      else true
    | .err => true

/-- `is_bloat` of `rendergit.py`. -/
def is_bloat (rel_path : String) (skip_bloat : Bool) : Bool :=
  if !skip_bloat then false
  else
    let filename := basename rel_path
    if BLOAT_PATTERNS.contains filename then true
    else (splitPath rel_path).any (fun part => BLOAT_DIRS.contains part)

/-- The version-control-metadata test of `decide_file`:
`"/.git/" in f"/{rel}/" or rel.startswith(".git/")`. -/
def isIgnoredVCS (rel : String) : Bool :=
  strContains ("/" ++ rel ++ "/") "/.git/" || strStartsWith rel ".git/"

/-- `RenderDecision` of `rendergit.py` (`include`, `reason`). -/
structure RenderDecision where
  «include» : Bool
  reason : String
deriving DecidableEq

/-- `FileInfo` of `rendergit.py`, with the absolute on-disk path dropped and
only the slash-separated repo-relative path kept as identity. -/
structure FileInfo where
  rel : String
  size : Nat
  decision : RenderDecision
deriving DecidableEq

/-- One file as `decide_file` sees it: its repo-relative slash-separated
path, the outcome of statting it and the outcome of reading its first
8 KiB. -/
structure FileInput where
  rel : String
  stat : StatResult
  read : ReadResult
deriving DecidableEq

/-- `decide_file` of `rendergit.py`.  The chain of early returns is, in
order: version-control metadata (`"ignored"`), bloat (`"bloat"`), size above
the ceiling (`"too_large"`), binary sniff (`"binary"`), and otherwise
`"ok"`.  An uncaught stat exception aborts classification
(`Except.error`). -/
def decide_file (f : FileInput) (max_bytes : Nat) (skip_bloat : Bool) :
    Except Unit FileInfo :=
  match sizeAfterStat f.stat with
  | .error e => .error e
  | .ok size =>
    if isIgnoredVCS f.rel then .ok ⟨f.rel, size, ⟨false, "ignored"⟩⟩
    else if is_bloat f.rel skip_bloat then .ok ⟨f.rel, size, ⟨false, "bloat"⟩⟩
    else if size > max_bytes then .ok ⟨f.rel, size, ⟨false, "too_large"⟩⟩
    else if looks_binary (strLower (pathSuffix f.rel)) f.read then
      .ok ⟨f.rel, size, ⟨false, "binary"⟩⟩
    else .ok ⟨f.rel, size, ⟨true, "ok"⟩⟩

/-! ## Tree builder (`build_folder_tree`) -/

/-- The nested string-keyed dictionary that `build_folder_tree` accumulates
in its `folders` variable, as an association list preserving Python's
insertion order of keys. -/
inductive FDict where
  | mk (entries : List (String × FDict))

/-- Entry list of an `FDict`. -/
def FDict.entries : FDict → List (String × FDict)
  | .mk es => es

/-- First-match key lookup in an entry list (Python `part in current` /
`current[part]`). -/
def lookupEntry : List (String × FDict) → String → Option FDict
  | [], _ => none
  | (q, sub) :: tl, p => if q == p then some sub else lookupEntry tl p

/-- Store a value under a key: update the first occurrence in place, or
append a fresh key at the end, exactly as assignment into a Python dict
behaves for the key order. -/
def setEntry : List (String × FDict) → String → FDict → List (String × FDict)
  | [], p, v => [(p, v)]
  | (q, sub) :: tl, p, v =>
    if q == p then (q, v) :: tl else (q, sub) :: setEntry tl p v

/-- The inner loop of `build_folder_tree` for one record: walk the proper
prefix segments `parts[:-1]`, creating each missing level
(`if part not in current: current[part] = {}`) and descending. -/
def insertChain (d : FDict) : List String → FDict
  | [] => d
  | p :: rest =>
    let sub := (lookupEntry d.entries p).getD (FDict.mk [])
    FDict.mk (setEntry d.entries p (insertChain sub rest))

/-- The `folders` dictionary of `build_folder_tree`, folded over the
included records in manifest order. -/
def foldersOf (rendered : List FileInfo) : FDict :=
  rendered.foldl (fun d i => insertChain d ((splitPath i.rel).dropLast)) (FDict.mk [])

/-- One node of the rendered selection tree: a folder checkbox (with its
display name, its `data-folder` path and its rendered children) or a file
checkbox (with its `data-file` path).  This is the structure of the HTML
that `render_tree` emits, with the formatting stripped. -/
inductive TreeItem where
  | folder (name : String) (folderPath : String) (children : List TreeItem)
  | file (rel : String)

/-- First-match lookup of a rendered child list by folder name. -/
def lookupRendered : List (String × List TreeItem) → String → Option (List TreeItem)
  | [], _ => none
  | (q, items) :: tl, p => if q == p then some items else lookupRendered tl p

mutual

/-- The recursive `render_tree` of `build_folder_tree`: for the node of the
`folders` dictionary reached at display path `path`, emit the subfolders
first, in `sorted(tree.keys())` order, each rendered recursively at
`folder_path`, and then the direct files (`files_here`, the included records
whose slash-joined parent equals `path.rstrip("/")`) sorted by basename.
The recursion into `tree[folder_name]` is realised by pre-rendering every
entry's subtree (`renderChildren`, preserving entry order) and then
assembling the sorted folder items by key lookup, which computes the same
children as looking the key up in the dictionary itself. -/
def render_tree (rendered : List FileInfo) (tree : FDict) (path : String) :
    List TreeItem :=
  match tree with
  | .mk es =>
    let rsubs := renderChildren rendered es path
    let folderItems :=
      (List.insertionSort (fun a b => strLe a b = true) (es.map Prod.fst)).map
        (fun folder_name =>
          let folder_path := if path == "" then folder_name else path ++ "/" ++ folder_name
          TreeItem.folder folder_name folder_path
            ((lookupRendered rsubs folder_name).getD []))
    let files_here := rendered.filter (fun i => parentOf i.rel == rstripSlash path)
    folderItems ++
      (List.insertionSort
          (fun a b => strLe (basename a.rel) (basename b.rel) = true) files_here).map
        (fun i => TreeItem.file i.rel)

/-- Renders the subtree of every dictionary entry, in entry order, pairing
it with its key. -/
def renderChildren (rendered : List FileInfo) (es : List (String × FDict))
    (path : String) : List (String × List TreeItem) :=
  match es with
  | [] => []
  | (folder_name, sub) :: tl =>
    let folder_path := if path == "" then folder_name else path ++ "/" ++ folder_name
    (folder_name, render_tree rendered sub folder_path) :: renderChildren rendered tl path

end

/-- `build_folder_tree` of `rendergit.py`: filter the manifest to the
included records, build the `folders` dictionary from their path prefixes,
and render the tree from the root with the empty display path. -/
def build_folder_tree (infos : List FileInfo) : List TreeItem :=
  let rendered := infos.filter (fun i => i.decision.«include»)
  render_tree rendered (foldersOf rendered) ""

/-! ## Selection model and export serializer (the generated page's script) -/

/-- One entry of the `fileData` array embedded in the page: the record's
path, size and raw text content, in manifest order. -/
structure FileData where
  path : String
  size : Nat
  content : String
deriving DecidableEq

/-- The mutable checkbox state of the page: the `.file-checkbox` elements
(`data-file` path and checked flag) in DOM order, and the
`.folder-checkbox` elements (`data-folder` path and checked flag) in DOM
order. -/
structure PageState where
  fileChecks : List (String × Bool)
  folderChecks : List (String × Bool)
deriving DecidableEq

/-- The `selectedFiles` array computed by `updateSelection()`: walk the
checked file checkboxes in DOM order and look each one's path up in
`fileData`, keeping the hits. -/
def selectedFiles (fileData : List FileData) (s : PageState) : List FileData :=
  (s.fileChecks.filter (fun cb => cb.2)).filterMap
    (fun cb => fileData.find? (fun fi => fi.path == cb.1))

/-- One `<document>` block of the CXML text, with its 1-based index. -/
def documentBlock (index : Nat) (file : FileData) : String :=
  "<document index=\"" ++ toString (index + 1) ++ "\">\n" ++
  "<source>" ++ file.path ++ "</source>\n" ++
  "<document_content>\n" ++ file.content ++ "\n</document_content>\n" ++
  "</document>\n"

/-- `updateLLMText(selectedFiles)`: the CXML export document, concatenating
one block per selected file with `index + 1` as its tag. -/
def updateLLMText (sel : List FileData) : String :=
  "<documents>\n" ++ String.join (sel.enum.map (fun p => documentBlock p.1 p.2)) ++
  "</documents>"

/-- Abstract view of the export document: the (1-based index, file) pairs in
the order their `<document>` blocks appear in `updateLLMText`'s output. -/
def exportPairs (fileData : List FileData) (s : PageState) : List (Nat × FileData) :=
  (selectedFiles fileData s).enum.map (fun p => (p.1 + 1, p.2))

/-- Spec-side definition following the specification's words, for comparison
with `exportPairs`: the export document the spec describes has its pairs in
the manifest's original ordering (the order of `fileData`), restricted to
the currently-selected paths, with 1-based indices assigned in that
manifest-restricted order. -/
def specExportPairs (fileData : List FileData) (s : PageState) :
    List (Nat × FileData) :=
  ((fileData.filter (fun fi => (s.fileChecks.lookup fi.path).getD false)).enum).map
    (fun p => (p.1 + 1, p.2))

/-- `selectAll()`: check every file checkbox and every folder checkbox. -/
def selectAll (s : PageState) : PageState :=
  ⟨s.fileChecks.map (fun e => (e.1, true)),
   s.folderChecks.map (fun e => (e.1, true))⟩

/-- `deselectAll()`: uncheck every file checkbox and every folder
checkbox. -/
def deselectAll (s : PageState) : PageState :=
  ⟨s.fileChecks.map (fun e => (e.1, false)),
   s.folderChecks.map (fun e => (e.1, false))⟩

/-- `filterByExtension(ext)`: `deselectAll()` and then check every file
checkbox whose path ends with `ext` (folder checkboxes stay unchecked). -/
def filterByExtension (s : PageState) (ext : String) : PageState :=
  let s1 := deselectAll s
  { s1 with
    fileChecks := s1.fileChecks.map
      (fun e => if strEndsWith e.1 ext then (e.1, true) else e) }

/-- The test-file heuristic of `toggleTests()`:
`filePath.includes('/test') || filePath.includes('/tests') ||
filePath.includes('_test.') || filePath.includes('.test.')`. -/
def testMatch (filePath : String) : Bool :=
  strContains filePath "/test" || strContains filePath "/tests" ||
  strContains filePath "_test." || strContains filePath ".test."

/-- `toggleTests()`: flip the checked flag of every file checkbox whose path
matches the test heuristic; folder checkboxes are untouched. -/
def toggleTests (s : PageState) : PageState :=
  { s with
    fileChecks := s.fileChecks.map
      (fun e => if testMatch e.1 then (e.1, !e.2) else e) }

/-- The per-file condition of the folder-checkbox change listener:
`filePath.startsWith(folderPath + '/') || filePath === folderPath`. -/
def folderMatches (folderPath filePath : String) : Bool :=
  strStartsWith filePath (folderPath ++ "/") || filePath == folderPath

/-- The folder-checkbox change listener: the clicked folder checkbox now
holds `isChecked` (the DOM already flipped it), and the handler writes
`isChecked` through to every file checkbox at or under the folder path.
Other folder checkboxes are not touched. -/
def toggleFolder (s : PageState) (folderPath : String) (isChecked : Bool) :
    PageState :=
  { fileChecks := s.fileChecks.map
      (fun e => if folderMatches folderPath e.1 then (e.1, isChecked) else e),
    folderChecks := s.folderChecks.map
      (fun e => if e.1 == folderPath then (e.1, isChecked) else e) }

/-- A click on one file checkbox: that checkbox now holds `value`; the change
listener only recomputes the derived views. -/
def toggleFile (s : PageState) (filePath : String) (value : Bool) : PageState :=
  { s with
    fileChecks := s.fileChecks.map
      (fun e => if e.1 == filePath then (e.1, value) else e) }

mutual

/-- The `data-file` paths of the file checkboxes inside one tree item, in
document order. -/
def itemFileRels : TreeItem → List String
  | .folder _ _ children => itemsFileRels children
  | .file rel => [rel]

/-- The `data-file` paths of the file checkboxes of an item list, in
document order. -/
def itemsFileRels : List TreeItem → List String
  | [] => []
  | it :: rest => itemFileRels it ++ itemsFileRels rest

end

mutual

/-- The `data-folder` paths of the folder checkboxes inside one tree item,
in document order. -/
def itemFolderPaths : TreeItem → List String
  | .folder _ folderPath children => folderPath :: itemsFolderPaths children
  | .file _ => []

/-- The `data-folder` paths of the folder checkboxes of an item list, in
document order. -/
def itemsFolderPaths : List TreeItem → List String
  | [] => []
  | it :: rest => itemFolderPaths it ++ itemsFolderPaths rest

end

/-- The page as initially emitted: every file and folder checkbox is
rendered with the `checked` attribute, in the DOM order produced by
`build_folder_tree`. -/
def initialState (infos : List FileInfo) : PageState :=
  let items := build_folder_tree infos
  { fileChecks := (itemsFileRels items).map (fun r => (r, true)),
    folderChecks := (itemsFolderPaths items).map (fun p => (p, true)) }

/-! ## Derived predicates used to state the claims -/

/-- Existence of a chain of nested keys in the `folders` dictionary: the
folder node reached by descending through the segment list exists. -/
def hasChain (d : FDict) : List String → Bool
  | [] => true
  | p :: rest =>
    match lookupEntry d.entries p with
    | some sub => hasChain sub rest
    | none => false

mutual

/-- One rendered item starts a folder chain: the item is a folder named like
the first segment and its children continue with the remaining segments. -/
def itemHasChain : TreeItem → List String → Bool
  | .folder n _ children, p :: rest => n == p && itemsHaveChain children rest
  | .folder _ _ _, [] => false
  | .file _, _ => false

/-- A rendered item list contains a folder node reached by descending
through the (nonempty) segment list; the empty list trivially holds. -/
def itemsHaveChain : List TreeItem → List String → Bool
  | _, [] => true
  | [], _ :: _ => false
  | it :: tl, p :: rest => itemHasChain it (p :: rest) || itemsHaveChain tl (p :: rest)

end

/-- Discriminates folder items from file items. -/
def isFolderItem : TreeItem → Bool
  | .folder _ _ _ => true
  | .file _ => false

/-- The key each child is displayed and sorted under: a folder's name, a
file's basename. -/
def itemSortKey : TreeItem → String
  | .folder n _ _ => n
  | .file rel => basename rel

/-- The child-ordering contract for one node's rendered children: the list
splits into a folder block followed by a file block, the folder block sorted
by name and the file block sorted by basename. -/
def childrenSplit (items : List TreeItem) : Prop :=
  ∃ fs gs, items = fs ++ gs ∧
    (∀ it ∈ fs, isFolderItem it = true) ∧
    (∀ it ∈ gs, isFolderItem it = false) ∧
    List.Sorted (fun a b => strLe a b = true) (fs.map itemSortKey) ∧
    List.Sorted (fun a b => strLe a b = true) (gs.map itemSortKey)

/-- Every node of a rendered forest satisfies the child-ordering contract,
recursively. -/
inductive WellOrderedForest : List TreeItem → Prop where
  | intro (items : List TreeItem)
      (hsplit : childrenSplit items)
      (hrec : ∀ n fp cs, TreeItem.folder n fp cs ∈ items → WellOrderedForest cs) :
      WellOrderedForest items

/-- Spec-side definition following the specification's words, for comparison
with `filterByExtension`: `deselectAll()` followed by a `toggleFile` to
`true` for every included path ending in the extension. -/
def specFilterByExtension (s : PageState) (ext : String) : PageState :=
  ((s.fileChecks.map Prod.fst).filter (fun p => strEndsWith p ext)).foldl
    (fun st p => toggleFile st p true) (deselectAll s)

/-- The descendant file-checkbox entries of a folder path, in DOM order:
the derived data a folder's display state would have to be computed from. -/
def descendantChecks (s : PageState) (folderPath : String) : List (String × Bool) :=
  s.fileChecks.filter (fun e => folderMatches folderPath e.1)

/-! ## Concrete fixtures used by witnesses and counterexamples -/

/-- A two-file repository: a root-level file and a file inside a folder.
Manifest order (`sorted(repo_root.rglob("*"))`) lists `a.py` before
`b/c.py`; the rendered tree displays the folder `b` (with `b/c.py`) before
the root file `a.py`. -/
def infos2 : List FileInfo :=
  [⟨"a.py", 3, ⟨true, "ok"⟩⟩, ⟨"b/c.py", 5, ⟨true, "ok"⟩⟩]

/-- The `fileData` array the page embeds for `infos2`, in manifest order. -/
def manifest2 : List FileData :=
  [⟨"a.py", 3, "print(1)"⟩, ⟨"b/c.py", 5, "print(2)"⟩]

/-- The spec's classification scenario: `a.py` included, `b.png` binary,
`lib/dep.lock` bloat, `.git/HEAD` ignored. -/
def scenarioInfos : List FileInfo :=
  [⟨".git/HEAD", 10, ⟨false, "ignored"⟩⟩, ⟨"a.py", 200, ⟨true, "ok"⟩⟩,
   ⟨"b.png", 50, ⟨false, "binary"⟩⟩, ⟨"lib/dep.lock", 30, ⟨false, "bloat"⟩⟩]

/-! ## Helper lemmas about the classifier -/

/-- Unfolding of `decide_file` when the stat succeeds with size `sz`. -/
theorem decide_file_found (f : FileInput) (mb : Nat) (sb : Bool) (sz : Nat)
    (h : f.stat = StatResult.found sz) :
    decide_file f mb sb =
      if isIgnoredVCS f.rel then .ok ⟨f.rel, sz, ⟨false, "ignored"⟩⟩
      else if is_bloat f.rel sb then .ok ⟨f.rel, sz, ⟨false, "bloat"⟩⟩
      else if sz > mb then .ok ⟨f.rel, sz, ⟨false, "too_large"⟩⟩
      else if looks_binary (strLower (pathSuffix f.rel)) f.read then
        .ok ⟨f.rel, sz, ⟨false, "binary"⟩⟩
      else .ok ⟨f.rel, sz, ⟨true, "ok"⟩⟩ := by
  unfold decide_file
  rw [h]
  rfl

/-- Unfolding of `decide_file` when the stat raises `FileNotFoundError`:
the size degrades to `0`. -/
theorem decide_file_notFound (f : FileInput) (mb : Nat) (sb : Bool)
    (h : f.stat = StatResult.fileNotFound) :
    decide_file f mb sb =
      if isIgnoredVCS f.rel then .ok ⟨f.rel, 0, ⟨false, "ignored"⟩⟩
      else if is_bloat f.rel sb then .ok ⟨f.rel, 0, ⟨false, "bloat"⟩⟩
      else if 0 > mb then .ok ⟨f.rel, 0, ⟨false, "too_large"⟩⟩
      else if looks_binary (strLower (pathSuffix f.rel)) f.read then
        .ok ⟨f.rel, 0, ⟨false, "binary"⟩⟩
      else .ok ⟨f.rel, 0, ⟨true, "ok"⟩⟩ := by
  unfold decide_file
  rw [h]
  rfl

/-- A read failure makes `looks_binary` answer `true` for every extension. -/
theorem looks_binary_err (ext : String) : looks_binary ext ReadResult.err = true := by
  unfold looks_binary
  split
  · rfl
  · rfl

/-- A `"bloat"` verdict can only come out of the `is_bloat` branch. -/
theorem is_bloat_of_reason_bloat {f : FileInput} {mb : Nat} {sb : Bool}
    {info : FileInfo} (h : decide_file f mb sb = .ok info)
    (hr : info.decision.reason = "bloat") : is_bloat f.rel sb = true := by
  cases hst : f.stat with
  | found sz =>
    rw [decide_file_found f mb sb sz hst] at h
    split_ifs at h with h1 h2 h3 h4
    · rw [Except.ok.injEq] at h; subst h; simp at hr
    · exact h2
    · rw [Except.ok.injEq] at h; subst h; simp at hr
    · rw [Except.ok.injEq] at h; subst h; simp at hr
    · rw [Except.ok.injEq] at h; subst h; simp at hr
  | fileNotFound =>
    rw [decide_file_notFound f mb sb hst] at h
    split_ifs at h with h1 h2 h3 h4
    · rw [Except.ok.injEq] at h; subst h; simp at hr
    · exact h2
    · rw [Except.ok.injEq] at h; subst h; simp at hr
    · rw [Except.ok.injEq] at h; subst h; simp at hr
    · rw [Except.ok.injEq] at h; subst h; simp at hr
  | osError =>
    unfold decide_file at h
    rw [hst] at h
    simp [sizeAfterStat] at h

/-- Unpacking of a successful `is_bloat` test: the flag is on and one of the
two pattern families matched. -/
theorem is_bloat_spec {rel : String} {sb : Bool} (h : is_bloat rel sb = true) :
    sb = true ∧ (BLOAT_PATTERNS.contains (basename rel) = true ∨
      (splitPath rel).any (fun part => BLOAT_DIRS.contains part) = true) := by
  unfold is_bloat at h
  cases hsb : sb
  · rw [hsb] at h
    simp at h
  · refine ⟨rfl, ?_⟩
    rw [hsb] at h
    cases hP : BLOAT_PATTERNS.contains (basename rel)
    · simp only [hP, Bool.not_true, if_false, Bool.false_eq_true] at h
      exact Or.inr h
    · exact Or.inl rfl

/-! ## C1: first-match classification order -/

/-- C1: for every file whose stat succeeds, classification returns exactly
one verdict, characterised by first-match evaluation in the fixed order
ignored, bloat, too_large, binary, ok; in particular a file that is neither
ignored nor bloat and whose size exceeds the ceiling is `"too_large"`
whatever `f.read` (the binary sniff input) is, since the sniff does not
occur in that branch's condition. -/
theorem C1_first_match_order (f : FileInput) (mb : Nat) (sb : Bool) (sz : Nat)
    (hstat : f.stat = StatResult.found sz) :
    ∃ d : RenderDecision, decide_file f mb sb = .ok ⟨f.rel, sz, d⟩ ∧
      (d.reason = "ignored" ∨ d.reason = "bloat" ∨ d.reason = "too_large" ∨
        d.reason = "binary" ∨ d.reason = "ok") ∧
      (d.reason = "ignored" ↔ isIgnoredVCS f.rel = true) ∧
      (d.reason = "bloat" ↔ isIgnoredVCS f.rel = false ∧ is_bloat f.rel sb = true) ∧
      (d.reason = "too_large" ↔ isIgnoredVCS f.rel = false ∧ is_bloat f.rel sb = false ∧
        mb < sz) ∧
      (d.reason = "binary" ↔ isIgnoredVCS f.rel = false ∧ is_bloat f.rel sb = false ∧
        sz ≤ mb ∧ looks_binary (strLower (pathSuffix f.rel)) f.read = true) ∧
      (d.reason = "ok" ↔ isIgnoredVCS f.rel = false ∧ is_bloat f.rel sb = false ∧
        sz ≤ mb ∧ looks_binary (strLower (pathSuffix f.rel)) f.read = false) ∧
      (d.«include» = true ↔ d.reason = "ok") := by
  have hd := decide_file_found f mb sb sz hstat
  cases hig : isIgnoredVCS f.rel
  · cases hbl : is_bloat f.rel sb
    · by_cases hsz : mb < sz
      · have hsz2 : ¬ sz ≤ mb := by omega
        refine ⟨⟨false, "too_large"⟩, ?_⟩
        rw [hd]
        simp [hig, hbl, hsz, hsz2]
      · have hsz2 : sz ≤ mb := by omega
        cases hbin : looks_binary (strLower (pathSuffix f.rel)) f.read
        · refine ⟨⟨true, "ok"⟩, ?_⟩
          rw [hd]
          simp [hig, hbl, hsz, hsz2, hbin]
        · refine ⟨⟨false, "binary"⟩, ?_⟩
          rw [hd]
          simp [hig, hbl, hsz, hsz2, hbin]
    · refine ⟨⟨false, "bloat"⟩, ?_⟩
      rw [hd]
      simp [hig, hbl]
  · refine ⟨⟨false, "ignored"⟩, ?_⟩
    rw [hd]
    simp [hig]

/-- C1 witness: the spec's scenario, a 150-byte valid-text file under a
100-byte ceiling, classifies as `"too_large"`. -/
theorem C1_witness :
    decide_file ⟨"a.txt", StatResult.found 150, ReadResult.ok (List.replicate 150 104)⟩
        100 true =
      .ok ⟨"a.txt", 150, ⟨false, "too_large"⟩⟩ := by
  obtain ⟨d, heq, hmem, hig, hbl, htl, hbin, hok, hinc⟩ :=
    C1_first_match_order
      ⟨"a.txt", StatResult.found 150, ReadResult.ok (List.replicate 150 104)⟩
      100 true 150 rfl
  have hr : d.reason = "too_large" := htl.mpr ⟨by decide, by decide, by decide⟩
  have hi : d.«include» = false := by
    cases hI : d.«include»
    · rfl
    · exfalso
      have hko := hinc.mp hI
      rw [hr] at hko
      simp at hko
  have hd2 : d = ⟨false, "too_large"⟩ := by
    obtain ⟨di, dr⟩ := d
    simp only [RenderDecision.mk.injEq]
    exact ⟨hi, hr⟩
  rw [hd2] at heq
  exact heq

/-! ## C8: bloat verdicts come only from the bloat rule -/

/-- C8: every `"bloat"` verdict requires bloat-skipping to be enabled and
the basename to be a known lockfile name or some slash-separated segment to
be a known generated-directory name; with bloat-skipping disabled no file is
classified `"bloat"`. -/
theorem C8_bloat_conditions :
    (∀ (f : FileInput) (mb : Nat) (sb : Bool) (info : FileInfo),
        decide_file f mb sb = .ok info → info.decision.reason = "bloat" →
        sb = true ∧
          (BLOAT_PATTERNS.contains (basename f.rel) = true ∨
            (splitPath f.rel).any (fun part => BLOAT_DIRS.contains part) = true)) ∧
    (∀ (f : FileInput) (mb : Nat) (info : FileInfo),
        decide_file f mb false = .ok info → info.decision.reason ≠ "bloat") := by
  constructor
  · intro f mb sb info h hr
    exact is_bloat_spec (is_bloat_of_reason_bloat h hr)
  · intro f mb info h hr
    have hb := is_bloat_of_reason_bloat h hr
    simp [is_bloat] at hb

/-- C8 witness: `package-lock.json` with bloat-skipping enabled is
classified `"bloat"`, and the theorem yields the lockfile-name disjunct. -/
theorem C8_witness :
    true = true ∧
      (BLOAT_PATTERNS.contains (basename "package-lock.json") = true ∨
        (splitPath "package-lock.json").any (fun part => BLOAT_DIRS.contains part) = true) := by
  exact C8_bloat_conditions.1 ⟨"package-lock.json", StatResult.found 10, ReadResult.ok []⟩
    100 true ⟨"package-lock.json", 10, ⟨false, "bloat"⟩⟩ rfl rfl

/-! ## C9: totality of classification vs. the caught exception set -/

/-- C9 counterexample: a stat failure other than `FileNotFoundError` (the
only exception the `try`/`except` in `decide_file` catches) propagates out
of classification instead of degrading to size 0, so classification does not
return a verdict for this input. -/
theorem C9_counterexample :
    decide_file ⟨"a.py", StatResult.osError, ReadResult.ok []⟩ 100 true =
      Except.error () := rfl

/-- C9 amended: classification terminates with a verdict for every file
whose stat succeeds or fails with `FileNotFoundError` — the latter degrading
the size to 0 — while any other stat failure propagates out of
classification (see the counterexample). -/
theorem C9_total_unless_other_stat_error (f : FileInput) (mb : Nat) (sb : Bool)
    (h : f.stat ≠ StatResult.osError) :
    ∃ info : FileInfo, decide_file f mb sb = .ok info ∧
      (f.stat = StatResult.fileNotFound → info.size = 0) ∧
      (info.decision.reason = "ignored" ∨ info.decision.reason = "bloat" ∨
        info.decision.reason = "too_large" ∨ info.decision.reason = "binary" ∨
        info.decision.reason = "ok") := by
  cases hst : f.stat with
  | osError => exact absurd hst h
  | found sz =>
    rw [decide_file_found f mb sb sz hst]
    split_ifs <;> exact ⟨_, rfl, fun hc => absurd hc (by simp), by simp⟩
  | fileNotFound =>
    rw [decide_file_notFound f mb sb hst]
    split_ifs <;> exact ⟨_, rfl, fun _ => rfl, by simp⟩

/-- C9 witness: a vanished file (`FileNotFoundError` on stat) still gets a
verdict, with size degraded to 0. -/
theorem C9_witness :
    ∃ info : FileInfo,
      decide_file ⟨"a.py", StatResult.fileNotFound, ReadResult.ok []⟩ 100 true =
          .ok info ∧
        info.size = 0 := by
  obtain ⟨info, h1, h2, _⟩ :=
    C9_total_unless_other_stat_error ⟨"a.py", StatResult.fileNotFound, ReadResult.ok []⟩
      100 true (by simp)
  exact ⟨info, h1, h2 rfl⟩

/-! ## C10: unreadable files are classified binary -/

/-- C10: any exception while opening or reading the file makes
`looks_binary` answer `true`, and a file reaching the sniff (not ignored,
not bloat, within the size ceiling) whose read fails is classified
`"binary"`. -/
theorem C10_unreadable_binary :
    (∀ ext : String, looks_binary ext ReadResult.err = true) ∧
    (∀ (f : FileInput) (mb : Nat) (sb : Bool) (sz : Nat),
        f.read = ReadResult.err → f.stat = StatResult.found sz →
        isIgnoredVCS f.rel = false → is_bloat f.rel sb = false → sz ≤ mb →
        decide_file f mb sb = .ok ⟨f.rel, sz, ⟨false, "binary"⟩⟩) := by
  constructor
  · exact looks_binary_err
  · intro f mb sb sz hr hst hig hbl hsz
    rw [decide_file_found f mb sb sz hst]
    rw [hr] at *
    simp [hig, hbl, looks_binary_err, Nat.not_lt.mpr hsz]

/-- C10 witness: a file with an unknown extension whose read raises is
classified `"binary"`. -/
theorem C10_witness :
    decide_file ⟨"notes.xyz", StatResult.found 10, ReadResult.err⟩ 100 true =
      .ok ⟨"notes.xyz", 10, ⟨false, "binary"⟩⟩ := by
  exact C10_unreadable_binary.2 ⟨"notes.xyz", StatResult.found 10, ReadResult.err⟩
    100 true 10 rfl rfl (by decide) (by decide) (by decide)

/-! ## Helper lemmas about the selection model -/

/-- Two page states with equal checkbox lists are equal. -/
theorem pageStateExt {a b : PageState} (h1 : a.fileChecks = b.fileChecks)
    (h2 : a.folderChecks = b.folderChecks) : a = b := by
  cases a
  cases b
  cases h1
  cases h2
  rfl

/-- Membership in an overwrite-style map over checkbox entries: an entry of
the result either had its key match the predicate and carries the written
value, or did not match and is an untouched entry of the input. -/
theorem mem_map_overwrite {fc : List (String × Bool)} {pred : String → Bool}
    {v : Bool} {q : String} {b : Bool}
    (h : (q, b) ∈ fc.map (fun e => if pred e.1 then (e.1, v) else e)) :
    (pred q = true ∧ b = v) ∨ (pred q = false ∧ (q, b) ∈ fc) := by
  obtain ⟨e, he, heq⟩ := List.mem_map.mp h
  cases hm : pred e.1
  · rw [hm] at heq
    simp only [Bool.false_eq_true, if_false] at heq
    subst heq
    exact Or.inr ⟨hm, he⟩
  · rw [hm] at heq
    simp only [if_true] at heq
    injection heq with hq hb
    subst hq
    exact Or.inl ⟨hm, hb.symm⟩

/-- Folding `toggleFile _ _ true` over a path list never touches the folder
checkboxes. -/
theorem foldl_toggleFile_folderChecks (M : List String) (st : PageState) :
    (M.foldl (fun acc p => toggleFile acc p true) st).folderChecks =
      st.folderChecks := by
  induction M generalizing st with
  | nil => rfl
  | cons p M ih =>
    rw [List.foldl_cons, ih]
    rfl

/-- Folding `toggleFile _ _ true` over a path list checks exactly the file
checkboxes whose key occurs in the list, leaving the rest alone. -/
theorem foldl_toggleFile_fileChecks (M : List String) (st : PageState) :
    (M.foldl (fun acc p => toggleFile acc p true) st).fileChecks =
      st.fileChecks.map (fun e => if M.contains e.1 then (e.1, true) else e) := by
  induction M generalizing st with
  | nil =>
    refine (List.map_id'' ?_ _).symm
    intro e
    simp [List.contains]
  | cons p M ih =>
    rw [List.foldl_cons, ih]
    simp only [toggleFile]
    rw [List.map_map]
    apply List.map_congr_left
    intro e _
    simp only [Function.comp]
    by_cases hp : e.1 = p
    · by_cases hc : e.1 ∈ M
      · simp [hp, hc]
      · simp [hp, hc]
    · by_cases hc : e.1 ∈ M
      · simp [hp, hc]
      · simp [hp, hc]

/-- Paths of the hits of looking a path list up in the manifest data: the
found records' paths are exactly the looked-up paths that occur in the
data. -/
theorem filterMap_find_paths (fileData : List FileData) (L : List String) :
    ((L.filterMap (fun p => fileData.find? (fun fi => fi.path == p))).map
        (fun fi => fi.path)) =
      L.filter (fun p => (fileData.find? (fun fi => fi.path == p)).isSome) := by
  induction L with
  | nil => rfl
  | cons p L ih =>
    rw [List.filterMap_cons]
    cases hf : fileData.find? (fun fi => fi.path == p) with
    | none =>
      rw [List.filter_cons]
      simp [hf, ih]
    | some fi =>
      have hp : fi.path = p := by simpa using List.find?_some hf
      rw [List.filter_cons]
      simp [hf, ih, hp]

/-! ## C4: the test toggle is an involution -/

/-- C4: `toggleTests` applied twice restores the exact prior selection
state, because each matched file checkbox's boolean is flipped rather than
set, the matched set depends only on the (unchanged) paths, and folder
checkboxes are untouched. -/
theorem C4_toggleTestFiles_involution (s : PageState) :
    toggleTests (toggleTests s) = s := by
  obtain ⟨fc, gc⟩ := s
  simp only [toggleTests, List.map_map]
  refine congrArg (fun l => PageState.mk l gc) ?_
  apply List.map_id''
  intro e
  obtain ⟨p, c⟩ := e
  cases h : testMatch p
  · simp [Function.comp, h]
  · simp [Function.comp, h]

/-! ## C5: folder toggling is an idempotent overwrite -/

/-- C5: the folder-checkbox handler sets every file checkbox whose path is
the folder path or starts with the folder path plus a slash to the chosen
value, leaves the rest untouched, is idempotent, and toggling a folder true
then false leaves zero selected files among that folder's descendants
whatever the prior state. -/
theorem C5_toggleFolder_overwrite (s : PageState) (p : String) (v : Bool) :
    (∀ q b, (q, b) ∈ (toggleFolder s p v).fileChecks → folderMatches p q = true →
      b = v) ∧
    (∀ q b, (q, b) ∈ (toggleFolder s p v).fileChecks → folderMatches p q = false →
      (q, b) ∈ s.fileChecks) ∧
    toggleFolder (toggleFolder s p v) p v = toggleFolder s p v ∧
    (∀ q b, (q, b) ∈ (toggleFolder (toggleFolder s p true) p false).fileChecks →
      folderMatches p q = true → b = false) := by
  refine ⟨?_, ?_, ?_, ?_⟩
  · intro q b hmem hq
    simp only [toggleFolder] at hmem
    rcases mem_map_overwrite hmem with ⟨_, hb⟩ | ⟨hm, _⟩
    · exact hb
    · rw [hq] at hm
      cases hm
  · intro q b hmem hq
    simp only [toggleFolder] at hmem
    rcases mem_map_overwrite hmem with ⟨hm, _⟩ | ⟨_, he⟩
    · rw [hq] at hm
      cases hm
    · exact he
  · apply pageStateExt
    · simp only [toggleFolder, List.map_map]
      apply List.map_congr_left
      intro e _
      simp only [Function.comp]
      cases hm : folderMatches p e.1
      · simp [hm]
      · simp [hm]
    · simp only [toggleFolder, List.map_map]
      apply List.map_congr_left
      intro e _
      simp only [Function.comp]
      cases hq : e.1 == p
      · simp [hq]
      · simp [hq]
  · intro q b hmem hq
    simp only [toggleFolder] at hmem
    rcases mem_map_overwrite hmem with ⟨_, hb⟩ | ⟨hm, _⟩
    · exact hb
    · rw [hq] at hm
      cases hm

/-- C5 witness: toggling folder `b` on then off leaves its descendant file
deselected. -/
theorem C5_witness :
    ("b/c.py", false) ∈
        (toggleFolder (toggleFolder ⟨[("b/c.py", true)], [("b", true)]⟩ "b" true)
            "b" false).fileChecks ∧
      false = false := by
  refine ⟨by decide, ?_⟩
  exact (C5_toggleFolder_overwrite ⟨[("b/c.py", true)], [("b", true)]⟩ "b" true).2.2.2
    "b/c.py" false (by decide) (by decide)

/-! ## C6: extension filtering refines deselect-then-select -/

/-- C6: `filterByExtension` produces exactly the state of `deselectAll`
followed by `toggleFile _ _ true` on every included path ending in the
extension; afterwards exactly the paths ending in the extension are
selected, `selectAll` selects every included file, and `deselectAll`
selects none. -/
theorem C6_filterByExtension_spec (s : PageState) (ext : String) :
    filterByExtension s ext = specFilterByExtension s ext ∧
    (∀ q b, (q, b) ∈ (filterByExtension s ext).fileChecks →
      b = strEndsWith q ext) ∧
    (∀ q b, (q, b) ∈ (selectAll s).fileChecks → b = true) ∧
    (∀ q b, (q, b) ∈ (deselectAll s).fileChecks → b = false) := by
  refine ⟨?_, ?_, ?_, ?_⟩
  · apply pageStateExt
    · unfold specFilterByExtension
      rw [foldl_toggleFile_fileChecks]
      simp only [filterByExtension, deselectAll, List.map_map]
      apply List.map_congr_left
      intro e he
      have hkey : (((s.fileChecks.map Prod.fst).filter
          (fun p => strEndsWith p ext)).contains e.1) = strEndsWith e.1 ext := by
        rw [Bool.eq_iff_iff]
        constructor
        · intro hc
          have hc2 : List.elem e.1 ((s.fileChecks.map Prod.fst).filter
              (fun p => strEndsWith p ext)) = true := hc
          exact (List.mem_filter.mp (List.elem_iff.mp hc2)).2
        · intro hE
          have hm : e.1 ∈ (s.fileChecks.map Prod.fst).filter
              (fun p => strEndsWith p ext) :=
            List.mem_filter.mpr ⟨List.mem_map.mpr ⟨e, he, rfl⟩, hE⟩
          exact List.elem_iff.mpr hm
      simp only [Function.comp]
      rw [hkey]
    · unfold specFilterByExtension
      rw [foldl_toggleFile_folderChecks]
      rfl
  · intro q b hmem
    simp only [filterByExtension, deselectAll, List.map_map] at hmem
    obtain ⟨e, he, heq⟩ := List.mem_map.mp hmem
    simp only [Function.comp] at heq
    cases hE : strEndsWith e.1 ext
    · rw [hE] at heq
      simp only [Bool.false_eq_true, if_false] at heq
      injection heq with h1 h2
      subst h1
      rw [hE]
      exact h2.symm
    · rw [hE] at heq
      simp only [if_true] at heq
      injection heq with h1 h2
      subst h1
      rw [hE]
      exact h2.symm
  · intro q b hmem
    simp only [selectAll] at hmem
    obtain ⟨e, he, heq⟩ := List.mem_map.mp hmem
    injection heq with h1 h2
    exact h2.symm
  · intro q b hmem
    simp only [deselectAll] at hmem
    obtain ⟨e, he, heq⟩ := List.mem_map.mp hmem
    injection heq with h1 h2
    exact h2.symm

/-- C6 witness: on a two-file page, filtering by `.py` agrees with the
deselect-then-toggle description and selects exactly the matching path. -/
theorem C6_witness :
    filterByExtension ⟨[("a.py", false), ("b.md", true)], [("d", true)]⟩ ".py" =
        specFilterByExtension ⟨[("a.py", false), ("b.md", true)], [("d", true)]⟩ ".py" ∧
      true = strEndsWith "a.py" ".py" := by
  refine ⟨(C6_filterByExtension_spec ⟨[("a.py", false), ("b.md", true)], [("d", true)]⟩ ".py").1, ?_⟩
  exact (C6_filterByExtension_spec ⟨[("a.py", false), ("b.md", true)], [("d", true)]⟩ ".py").2.1
    "a.py" true (by decide)

/-! ## C2: the export document versus manifest order -/

/-- C2 counterexample: on the page generated for `infos2`, with every file
selected, the export document's blocks appear in the tree's display order
(`b/c.py` before `a.py`, folders render before root files) instead of the
manifest's original ordering (`a.py` before `b/c.py`), so the claimed
manifest-order export differs from the generated one. -/
theorem C2_counterexample :
    (exportPairs manifest2 (initialState infos2)).map (fun p => p.2.path) =
        ["b/c.py", "a.py"] ∧
      (specExportPairs manifest2 (initialState infos2)).map (fun p => p.2.path) =
        ["a.py", "b/c.py"] ∧
      exportPairs manifest2 (initialState infos2) ≠
        specExportPairs manifest2 (initialState infos2) := by
  refine ⟨rfl, rfl, ?_⟩
  decide

/-- C2 amended: the regenerated export document consists of exactly the
currently-selected included files as (path, content) pairs, in the file
checkboxes' DOM order — which is the tree's display order, not the
manifest's — each pair tagged with a 1-based index consecutive in that
order, and each pair being the manifest record itself (content verbatim). -/
theorem C2_export_document (fileData : List FileData) (s : PageState) :
    (exportPairs fileData s).map Prod.fst =
        List.range' 1 (selectedFiles fileData s).length ∧
      (exportPairs fileData s).map Prod.snd = selectedFiles fileData s ∧
      (selectedFiles fileData s).all (fun fi => fileData.contains fi) = true ∧
      (selectedFiles fileData s).map (fun fi => fi.path) =
        ((s.fileChecks.filter (fun cb => cb.2)).map Prod.fst).filter
          (fun p => (fileData.find? (fun fi => fi.path == p)).isSome) := by
  refine ⟨?_, ?_, ?_, ?_⟩
  · unfold exportPairs
    rw [List.map_map]
    have h1 : (Prod.fst ∘ fun p : Nat × FileData => (p.1 + 1, p.2)) =
        ((fun i => i + 1) ∘ Prod.fst) := rfl
    rw [h1, ← List.map_map, List.enum_map_fst, List.range'_eq_map_range]
    apply List.map_congr_left
    intro a _
    omega
  · unfold exportPairs
    rw [List.map_map]
    have h1 : (Prod.snd ∘ fun p : Nat × FileData => (p.1 + 1, p.2)) =
        (Prod.snd : Nat × FileData → FileData) := rfl
    rw [h1, List.enum_map_snd]
  · rw [List.all_eq_true]
    intro fi hfi
    obtain ⟨cb, hcb, hfind⟩ := List.mem_filterMap.mp hfi
    exact List.elem_iff.mpr (List.mem_of_find?_eq_some hfind)
  · unfold selectedFiles
    have hcomp : (fun cb : String × Bool => fileData.find? (fun fi => fi.path == cb.1)) =
        ((fun p => fileData.find? (fun fi => fi.path == p)) ∘ Prod.fst) := rfl
    rw [hcomp, ← List.filterMap_map]
    exact filterMap_find_paths fileData _

/-! ## C3: folder display state versus file state -/

/-- C3 counterexample: starting from the initially generated page for
`infos2`, the single actions `filterByExtension ".py"` and `selectAll` leave
folder `b`'s descendant file checkboxes in identical states (all selected),
yet the stored folder-checkbox values differ (`false` after the filter,
`true` after select-all) — so the folder's checked display state is not
derivable from its descendant files' booleans after every action. -/
theorem C3_counterexample :
    descendantChecks (filterByExtension (initialState infos2) ".py") "b" =
        descendantChecks (selectAll (initialState infos2)) "b" ∧
      (filterByExtension (initialState infos2) ".py").folderChecks.lookup "b" =
        some false ∧
      (selectAll (initialState infos2)).folderChecks.lookup "b" = some true := by
  refine ⟨by decide, by decide, by decide⟩

/-- C3 amended: toggling a folder writes the chosen value through to every
included descendant file entry, and the folder checkboxes are never a
source of truth for the derived views (selection and export read only the
file checkboxes); but a folder checkbox's displayed state is an
independently stored flag that file-level actions do not re-derive —
`filterByExtension` unchecks every folder checkbox regardless of how many
descendants end up selected, so folder and file display state can
diverge. -/
theorem C3_folder_state (s : PageState) (p : String) (v : Bool) :
    (∀ q b, (q, b) ∈ (toggleFolder s p v).fileChecks → folderMatches p q = true →
      b = v) ∧
    (∀ (fileData : List FileData) (t : PageState), s.fileChecks = t.fileChecks →
      selectedFiles fileData s = selectedFiles fileData t ∧
        exportPairs fileData s = exportPairs fileData t) ∧
    (∀ ext q c, (q, c) ∈ (filterByExtension s ext).folderChecks → c = false) := by
  refine ⟨?_, ?_, ?_⟩
  · intro q b hmem hq
    simp only [toggleFolder] at hmem
    rcases mem_map_overwrite hmem with ⟨_, hb⟩ | ⟨hm, _⟩
    · exact hb
    · rw [hq] at hm
      cases hm
  · intro fileData t h
    constructor
    · unfold selectedFiles
      rw [h]
    · unfold exportPairs selectedFiles
      rw [h]
  · intro ext q c hmem
    simp only [filterByExtension, deselectAll] at hmem
    obtain ⟨e, he, heq⟩ := List.mem_map.mp hmem
    injection heq with h1 h2
    exact h2.symm

/-- C3 witness: unchecking folder `b` on the generated page writes `false`
through to its descendant file `b/c.py`. -/
theorem C3_witness :
    ("b/c.py", false) ∈ (toggleFolder (initialState infos2) "b" false).fileChecks ∧
      false = false := by
  refine ⟨by decide, ?_⟩
  exact (C3_folder_state (initialState infos2) "b" false).1 "b/c.py" false
    (by decide) (by decide)

/-! ## Order lemmas for the code-point comparison -/

/-- Asymmetry of the code-point strict order. -/
theorem lexLt_asymm : ∀ (a b : List Char), lexLt a b = true → lexLt b a = false
  | [], [], h => by simp [lexLt] at h
  | [], _ :: _, _ => by simp [lexLt]
  | _ :: _, [], h => by simp [lexLt] at h
  | a :: as, b :: bs, h => by
    simp only [lexLt] at h ⊢
    by_cases h1 : a.toNat < b.toNat
    · rw [if_neg (by omega), if_pos h1]
    · by_cases h2 : b.toNat < a.toNat
      · rw [if_neg h1, if_pos h2] at h
        exact absurd h (by simp)
      · rw [if_neg h1, if_neg h2] at h
        rw [if_neg h2, if_neg h1]
        exact lexLt_asymm as bs h

/-- Transitivity of the code-point strict order. -/
theorem lexLt_trans : ∀ (a b c : List Char),
    lexLt a b = true → lexLt b c = true → lexLt a c = true
  | _, [], [], _, h2 => by simp [lexLt] at h2
  | _, _ :: _, [], _, h2 => by simp [lexLt] at h2
  | [], _, _ :: _, _, _ => by simp [lexLt]
  | _ :: _, [], _ :: _, h1, _ => by simp [lexLt] at h1
  | a :: as, b :: bs, c :: cs, h1, h2 => by
    simp only [lexLt] at h1 h2 ⊢
    by_cases hab : a.toNat < b.toNat
    · by_cases hbc : b.toNat < c.toNat
      · rw [if_pos (by omega)]
      · by_cases hcb : c.toNat < b.toNat
        · rw [if_neg hbc, if_pos hcb] at h2
          exact absurd h2 (by simp)
        · rw [if_pos (by omega)]
    · by_cases hba : b.toNat < a.toNat
      · rw [if_neg hab, if_pos hba] at h1
        exact absurd h1 (by simp)
      · rw [if_neg hab, if_neg hba] at h1
        by_cases hbc : b.toNat < c.toNat
        · rw [if_pos (by omega)]
        · by_cases hcb : c.toNat < b.toNat
          · rw [if_neg hbc, if_pos hcb] at h2
            exact absurd h2 (by simp)
          · rw [if_neg hbc, if_neg hcb] at h2
            rw [if_neg (by omega), if_neg (by omega)]
            exact lexLt_trans as bs cs h1 h2

/-- Two lists neither of which is below the other are equal. -/
theorem lexLt_connex : ∀ (a b : List Char),
    lexLt a b = false → lexLt b a = false → a = b
  | [], [], _, _ => rfl
  | [], _ :: _, h1, _ => by simp [lexLt] at h1
  | _ :: _, [], _, h2 => by simp [lexLt] at h2
  | a :: as, b :: bs, h1, h2 => by
    simp only [lexLt] at h1 h2
    by_cases hab : a.toNat < b.toNat
    · rw [if_pos hab] at h1
      exact absurd h1 (by simp)
    · by_cases hba : b.toNat < a.toNat
      · rw [if_pos hba] at h2
        exact absurd h2 (by simp)
      · rw [if_neg hab, if_neg hba] at h1
        rw [if_neg hba, if_neg hab] at h2
        have hval : a.val.toNat = b.val.toNat := by
          have hab2 : ¬ a.toNat < b.toNat := hab
          have hba2 : ¬ b.toNat < a.toNat := hba
          unfold Char.toNat at hab2 hba2
          omega
        have hchar : a = b := Char.ext (UInt32.ext hval)
        have htail : as = bs := lexLt_connex as bs h1 h2
        rw [hchar, htail]

/-- Totality of the modelled `sorted` comparison. -/
theorem strLe_total (a b : String) : strLe a b = true ∨ strLe b a = true := by
  unfold strLe
  by_cases h : lexLt b.data a.data = true
  · right
    rw [lexLt_asymm _ _ h]
    rfl
  · left
    rw [Bool.eq_false_iff.mpr h]
    rfl

/-- Transitivity of the modelled `sorted` comparison. -/
theorem strLe_trans (a b c : String) (h1 : strLe a b = true) (h2 : strLe b c = true) :
    strLe a c = true := by
  unfold strLe at h1 h2 ⊢
  rw [Bool.not_eq_true'] at h1 h2 ⊢
  by_cases hca : lexLt c.data a.data = true
  · exfalso
    by_cases hbc : lexLt b.data c.data = true
    · have hba := lexLt_trans _ _ _ hbc hca
      rw [h1] at hba
      exact absurd hba (by simp)
    · have heq : c.data = b.data :=
        lexLt_connex _ _ h2 (Bool.eq_false_iff.mpr hbc)
      rw [heq, h1] at hca
      exact absurd hca (by simp)
  · exact Bool.eq_false_iff.mpr hca

/-! ## Trie lemmas for the folders dictionary -/

/-- Looking up the key just stored finds the stored value. -/
theorem lookupEntry_setEntry_self (es : List (String × FDict)) (p : String)
    (v : FDict) : lookupEntry (setEntry es p v) p = some v := by
  induction es with
  | nil => simp [setEntry, lookupEntry]
  | cons hd tl ih =>
    obtain ⟨q, sub⟩ := hd
    by_cases hq : q = p
    · simp [setEntry, lookupEntry, beq_iff_eq, hq]
    · simp [setEntry, lookupEntry, beq_iff_eq, hq, ih]

/-- Storing under one key leaves lookups of other keys unchanged. -/
theorem lookupEntry_setEntry_ne (es : List (String × FDict)) (p q : String)
    (v : FDict) (h : q ≠ p) :
    lookupEntry (setEntry es p v) q = lookupEntry es q := by
  induction es with
  | nil =>
    have h2 : ¬ p = q := fun hc => h hc.symm
    simp [setEntry, lookupEntry, beq_iff_eq, h2]
  | cons hd tl ih =>
    obtain ⟨k, sub⟩ := hd
    by_cases hk : k = p
    · subst hk
      have h2 : ¬ k = q := fun hc => h hc.symm
      simp [setEntry, lookupEntry, beq_iff_eq, h2]
    · by_cases hkq : k = q
      · simp [setEntry, lookupEntry, beq_iff_eq, hk, hkq, h]
      · simp [setEntry, lookupEntry, beq_iff_eq, hk, hkq, ih]

/-- Chains of the empty dictionary: only the empty chain. -/
theorem hasChain_empty (m : List String) :
    hasChain (FDict.mk []) m = m.isEmpty := by
  cases m
  · rfl
  · rfl

/-- Chains after inserting a prefix chain: the old chains plus every prefix
of the inserted segment list. -/
theorem hasChain_insertChain : ∀ (l : List String) (d : FDict) (m : List String),
    hasChain (insertChain d l) m = (hasChain d m || m.isPrefixOf l)
  | [], d, m => by
    cases m with
    | nil => simp [hasChain, insertChain]
    | cons q mrest => simp [insertChain, List.isPrefixOf]
  | p :: rest, d, m => by
    obtain ⟨es⟩ := d
    cases m with
    | nil => simp [hasChain]
    | cons q mrest =>
      by_cases hq : q = p
      · subst hq
        have hset := lookupEntry_setEntry_self es q
          (insertChain ((lookupEntry es q).getD (FDict.mk [])) rest)
        simp only [insertChain, hasChain, FDict.entries, hset]
        rw [hasChain_insertChain rest]
        cases hlook : lookupEntry es q with
        | none =>
          simp only [hlook, Option.getD_none, hasChain_empty]
          cases mrest with
          | nil => simp [List.isPrefixOf]
          | cons x xs => simp [List.isPrefixOf]
        | some sub =>
          simp [hlook, List.isPrefixOf]
      · have hset := lookupEntry_setEntry_ne es p q
          (insertChain ((lookupEntry es p).getD (FDict.mk [])) rest) hq
        have hbeq : (q == p) = false := by
          simp [beq_iff_eq, hq]
        simp only [insertChain, hasChain, FDict.entries, hset, List.isPrefixOf, hbeq,
          Bool.false_and, Bool.or_false]

/-- Chains of the dictionary folded over a record list. -/
theorem hasChain_foldl (L : List FileInfo) : ∀ (d : FDict) (m : List String),
    hasChain (L.foldl (fun d i => insertChain d ((splitPath i.rel).dropLast)) d) m =
      (hasChain d m || L.any (fun i => m.isPrefixOf ((splitPath i.rel).dropLast))) := by
  induction L with
  | nil =>
    intro d m
    simp
  | cons i L ih =>
    intro d m
    rw [List.foldl_cons, ih, hasChain_insertChain]
    simp [List.any_cons, Bool.or_assoc]

/-- Characterisation of the `folders` dictionary of `build_folder_tree`:
a nonempty key chain exists exactly when it is a prefix of some included
record's directory segments (the empty chain, the root, always exists). -/
theorem hasChain_foldersOf (rendered : List FileInfo) (m : List String) :
    hasChain (foldersOf rendered) m =
      (m.isEmpty || rendered.any (fun i => m.isPrefixOf ((splitPath i.rel).dropLast))) := by
  unfold foldersOf
  rw [hasChain_foldl, hasChain_empty]

/-- A successful lookup returns a structurally smaller dictionary. -/
theorem sizeOf_lookupEntry : ∀ (es : List (String × FDict)) (p : String)
    (sub : FDict), lookupEntry es p = some sub → sizeOf sub < sizeOf es := by
  intro es p sub h
  induction es with
  | nil => simp [lookupEntry] at h
  | cons hd tl ih =>
    obtain ⟨q, s⟩ := hd
    simp only [lookupEntry] at h
    by_cases hq : (q == p) = true
    · rw [if_pos hq] at h
      injection h with h2
      subst h2
      simp
      omega
    · rw [if_neg hq] at h
      have := ih h
      simp
      omega

/-- A key has an entry exactly when it occurs among the keys. -/
theorem lookupEntry_isSome_iff (es : List (String × FDict)) (p : String) :
    (lookupEntry es p).isSome = true ↔ p ∈ es.map Prod.fst := by
  induction es with
  | nil => simp [lookupEntry]
  | cons hd tl ih =>
    obtain ⟨q, sub⟩ := hd
    by_cases hq : q = p
    · subst hq
      simp [lookupEntry]
    · have hbeq : (q == p) = false := by simp [beq_iff_eq, hq]
      have hpq : ¬ p = q := fun hc => hq hc.symm
      simp [lookupEntry, hbeq, ih, hpq]

/-! ## Bridge lemmas between the rendered tree and the dictionary -/

/-- Looking a key up among the pre-rendered children computes the same
subtree as rendering the key's dictionary entry. -/
theorem lookupRendered_renderChildren (rendered : List FileInfo) :
    ∀ (es : List (String × FDict)) (path k : String),
      lookupRendered (renderChildren rendered es path) k =
        (lookupEntry es k).map (fun sub =>
          render_tree rendered sub (if path == "" then k else path ++ "/" ++ k))
  | [], _, _ => rfl
  | (n, sub) :: tl, path, k => by
    by_cases hn : n = k
    · subst hn
      simp [renderChildren, lookupRendered, lookupEntry]
    · have hbeq : (n == k) = false := by simp [beq_iff_eq, hn]
      simp only [renderChildren, lookupRendered, lookupEntry, hbeq, Bool.false_eq_true,
        if_false]
      exact lookupRendered_renderChildren rendered tl path k

/-- Chains distribute over appending item lists. -/
theorem itemsHaveChain_append (a : List TreeItem) (b : List TreeItem) (p : String)
    (rest : List String) :
    itemsHaveChain (a ++ b) (p :: rest) =
      (itemsHaveChain a (p :: rest) || itemsHaveChain b (p :: rest)) := by
  induction a with
  | nil => simp [itemsHaveChain]
  | cons it tl ih => simp [itemsHaveChain, ih, Bool.or_assoc]

/-- File items never start a folder chain. -/
theorem itemsHaveChain_map_file (L : List FileInfo) (p : String) (rest : List String) :
    itemsHaveChain (L.map (fun i => TreeItem.file i.rel)) (p :: rest) = false := by
  induction L with
  | nil => rfl
  | cons i tl ih => simp [itemsHaveChain, itemHasChain, ih]

/-- A chain through a list of folder items built from keys. -/
theorem itemsHaveChain_map_folder (keys : List String) (fp : String → String)
    (F : String → List TreeItem) (p : String) (rest : List String) :
    itemsHaveChain (keys.map (fun k => TreeItem.folder k (fp k) (F k))) (p :: rest) =
      keys.any (fun k => k == p && itemsHaveChain (F k) rest) := by
  induction keys with
  | nil => rfl
  | cons k tl ih => simp [itemsHaveChain, itemHasChain, ih, List.any_cons]

/-- Folding a keyed test over a list: since the tested payload only depends
on the matched key, `any` reduces to membership of the key. -/
theorem any_beq_and (keys : List String) (p : String) (g : String → Bool) :
    keys.any (fun k => k == p && g k) = (keys.contains p && g p) := by
  induction keys with
  | nil => rfl
  | cons k tl ih =>
    rw [List.any_cons, ih, List.contains_cons]
    by_cases hk : k = p
    · subst hk
      cases hg : g k
      · simp [hg]
      · simp [hg]
    · have h1 : (k == p) = false := by simp [beq_iff_eq, hk]
      have h2 : (p == k) = false := by
        have hpk : ¬ p = k := fun hc => hk hc.symm
        simp [beq_iff_eq, hpk]
      simp [h1, h2]

/-- Sorting does not change membership tests. -/
theorem contains_insertionSort {α : Type} [BEq α] [LawfulBEq α] (r : α → α → Prop)
    [DecidableRel r] (l : List α) (p : α) :
    (List.insertionSort r l).contains p = l.contains p := by
  rw [Bool.eq_iff_iff]
  constructor
  · intro h
    have h2 : List.elem p (List.insertionSort r l) = true := h
    exact List.elem_iff.mpr ((List.perm_insertionSort r l).mem_iff.mp (List.elem_iff.mp h2))
  · intro h
    have h2 : List.elem p l = true := h
    exact List.elem_iff.mpr ((List.perm_insertionSort r l).mem_iff.mpr (List.elem_iff.mp h2))

/-- Key membership agrees with lookup success. -/
theorem contains_keys_eq_isSome (es : List (String × FDict)) (p : String) :
    (es.map Prod.fst).contains p = (lookupEntry es p).isSome := by
  rw [Bool.eq_iff_iff]
  constructor
  · intro h
    have h2 : List.elem p (es.map Prod.fst) = true := h
    exact (lookupEntry_isSome_iff es p).mpr (List.elem_iff.mp h2)
  · intro h
    exact List.elem_iff.mpr ((lookupEntry_isSome_iff es p).mp h)

/-- The empty chain holds of every item list. -/
theorem itemsHaveChain_nil_chain (items : List TreeItem) :
    itemsHaveChain items [] = true := by
  cases items
  · rfl
  · rfl

/-- The rendered tree has exactly the folder chains of the `folders`
dictionary it was rendered from. -/
theorem itemsHaveChain_render_tree (rendered : List FileInfo) :
    ∀ (m : List String) (d : FDict) (path : String),
      itemsHaveChain (render_tree rendered d path) m = hasChain d m
  | [], d, path => by
    rw [itemsHaveChain_nil_chain]
    simp [hasChain]
  | p :: rest, d, path => by
    obtain ⟨es⟩ := d
    simp only [render_tree]
    rw [itemsHaveChain_append, itemsHaveChain_map_file, Bool.or_false,
      itemsHaveChain_map_folder, any_beq_and,
      contains_insertionSort, contains_keys_eq_isSome,
      lookupRendered_renderChildren]
    simp only [hasChain, FDict.entries]
    cases hlook : lookupEntry es p with
    | none => simp [hlook]
    | some sub =>
      simp only [hlook, Option.isSome_some, Option.map_some', Option.getD_some,
        Bool.true_and]
      exact itemsHaveChain_render_tree rendered rest sub _

/-! ## File-leaf soundness and child ordering of the rendered tree -/

/-- File paths distribute over appending item lists. -/
theorem itemsFileRels_append (a b : List TreeItem) :
    itemsFileRels (a ++ b) = itemsFileRels a ++ itemsFileRels b := by
  induction a with
  | nil => rfl
  | cons it tl ih => simp [itemsFileRels, ih, List.append_assoc]

/-- A file path found under a list of folder items comes from some key's
children. -/
theorem mem_itemsFileRels_map_folder {r : String} {keys : List String}
    {fp : String → String} {F : String → List TreeItem}
    (h : r ∈ itemsFileRels (keys.map (fun k => TreeItem.folder k (fp k) (F k)))) :
    ∃ k, k ∈ keys ∧ r ∈ itemsFileRels (F k) := by
  induction keys with
  | nil => simp [itemsFileRels] at h
  | cons k tl ih =>
    simp only [List.map_cons, itemsFileRels, itemFileRels] at h
    rcases List.mem_append.mp h with h2 | h2
    · exact ⟨k, List.mem_cons_self k tl, h2⟩
    · obtain ⟨k2, hk2, hr2⟩ := ih h2
      exact ⟨k2, List.mem_cons_of_mem _ hk2, hr2⟩

/-- A file path found among file items is one of the records' paths. -/
theorem mem_itemsFileRels_map_file {r : String} {L : List FileInfo}
    (h : r ∈ itemsFileRels (L.map (fun i => TreeItem.file i.rel))) :
    ∃ i, i ∈ L ∧ i.rel = r := by
  induction L with
  | nil => simp [itemsFileRels] at h
  | cons i tl ih =>
    simp only [List.map_cons, itemsFileRels, itemFileRels] at h
    rcases List.mem_append.mp h with h2 | h2
    · exact ⟨i, List.mem_cons_self i tl, (List.mem_singleton.mp h2).symm⟩
    · obtain ⟨i2, hi2, hr2⟩ := ih h2
      exact ⟨i2, List.mem_cons_of_mem _ hi2, hr2⟩

/-- Every file path in the rendered tree belongs to a record of the
`rendered` list the tree was built over. -/
theorem mem_itemsFileRels_render_tree (rendered : List FileInfo) :
    ∀ (n : Nat) (d : FDict), sizeOf d ≤ n → ∀ (path r : String),
      r ∈ itemsFileRels (render_tree rendered d path) →
      ∃ i, i ∈ rendered ∧ i.rel = r := by
  intro n
  induction n with
  | zero =>
    intro d hd
    exfalso
    obtain ⟨es⟩ := d
    have h2 : sizeOf (FDict.mk es) = 1 + sizeOf es := by simp
    omega
  | succ n ih =>
    intro d hd path r hr
    obtain ⟨es⟩ := d
    simp only [render_tree] at hr
    rw [itemsFileRels_append] at hr
    rcases List.mem_append.mp hr with h | h
    · obtain ⟨k, hk, hrk⟩ := mem_itemsFileRels_map_folder h
      have hkmem : k ∈ es.map Prod.fst := (List.perm_insertionSort _ _).mem_iff.mp hk
      cases hlook : lookupEntry es k with
      | none =>
        have hsome := (lookupEntry_isSome_iff es k).mpr hkmem
        rw [hlook] at hsome
        simp at hsome
      | some sub =>
        rw [lookupRendered_renderChildren, hlook] at hrk
        simp only [Option.map_some', Option.getD_some] at hrk
        have hsize : sizeOf sub ≤ n := by
          have h1 := sizeOf_lookupEntry es k sub hlook
          have h2 : sizeOf (FDict.mk es) = 1 + sizeOf es := by simp
          omega
        exact ih sub hsize _ r hrk
    · obtain ⟨i, hi, hir⟩ := mem_itemsFileRels_map_file h
      have hi2 : i ∈ rendered :=
        (List.mem_filter.mp ((List.perm_insertionSort _ _).mem_iff.mp hi)).1
      exact ⟨i, hi2, hir⟩

/-- The empty forest is well ordered. -/
theorem wellOrderedForest_nil : WellOrderedForest [] := by
  constructor
  · exact ⟨[], [], rfl, by simp, by simp, by simp, by simp⟩
  · intro nm fp cs h
    simp at h

/-- Every node of a rendered tree lists its subfolders first, sorted by
name, followed by its files sorted by basename, recursively. -/
theorem wellOrdered_render_tree (rendered : List FileInfo) :
    ∀ (n : Nat) (d : FDict), sizeOf d ≤ n → ∀ (path : String),
      WellOrderedForest (render_tree rendered d path) := by
  intro n
  induction n with
  | zero =>
    intro d hd
    exfalso
    obtain ⟨es⟩ := d
    have h2 : sizeOf (FDict.mk es) = 1 + sizeOf es := by simp
    omega
  | succ n ih =>
    intro d hd path
    obtain ⟨es⟩ := d
    constructor
    · simp only [render_tree]
      refine ⟨_, _, rfl, ?_, ?_, ?_, ?_⟩
      · intro it hit
        obtain ⟨k, _, hk⟩ := List.mem_map.mp hit
        rw [← hk]
        rfl
      · intro it hit
        obtain ⟨i, _, hi⟩ := List.mem_map.mp hit
        rw [← hi]
        rfl
      · rw [List.map_map]
        have hkeys := @List.sorted_insertionSort String (fun a b => strLe a b = true) _
          ⟨strLe_total⟩ ⟨fun a b c => strLe_trans a b c⟩ (es.map Prod.fst)
        exact List.Pairwise.map _ (fun a b h => h) hkeys
      · rw [List.map_map]
        have hsorted := @List.sorted_insertionSort FileInfo
          (fun a b => strLe (basename a.rel) (basename b.rel) = true) _
          ⟨fun a b => strLe_total _ _⟩ ⟨fun a b c => strLe_trans _ _ _⟩
          (rendered.filter (fun i => parentOf i.rel == rstripSlash path))
        exact List.Pairwise.map _ (fun a b h => h) hsorted
    · intro nm fpath cs hmem
      simp only [render_tree] at hmem
      rcases List.mem_append.mp hmem with h | h
      · obtain ⟨k, hk, heq⟩ := List.mem_map.mp h
        injection heq with h1 h2 h3
        cases hlook : lookupEntry es k with
        | none =>
          rw [lookupRendered_renderChildren, hlook] at h3
          simp only [Option.map_none', Option.getD_none] at h3
          rw [← h3]
          exact wellOrderedForest_nil
        | some sub =>
          rw [lookupRendered_renderChildren, hlook] at h3
          simp only [Option.map_some', Option.getD_some] at h3
          rw [← h3]
          have hsize : sizeOf sub ≤ n := by
            have hs1 := sizeOf_lookupEntry es k sub hlook
            have hs2 : sizeOf (FDict.mk es) = 1 + sizeOf es := by simp
            omega
          exact ih sub hsize _
      · obtain ⟨i, _, heq⟩ := List.mem_map.mp h
        exact absurd heq (by simp)

/-! ## C7: shape of the built tree -/

/-- C7: for every input record list, the built tree contains a file leaf
only for records with an `Include` verdict; it contains a folder chain
exactly when at least one included record lies transitively under that
directory prefix (no empty folders, and pruned entirely when a folder holds
only excluded files); and every node lists subfolders before files with each
group sorted (names for folders, basenames for files).  Determinism for
identical inputs is immediate since `build_folder_tree` is a pure
function. -/
theorem C7_tree_structure (infos : List FileInfo) :
    (∀ r, r ∈ itemsFileRels (build_folder_tree infos) →
      ∃ i, i ∈ infos ∧ i.decision.«include» = true ∧ i.rel = r) ∧
    (∀ m : List String, m ≠ [] →
      (itemsHaveChain (build_folder_tree infos) m = true ↔
        ∃ i, i ∈ infos ∧ i.decision.«include» = true ∧
          m.isPrefixOf ((splitPath i.rel).dropLast) = true)) ∧
    WellOrderedForest (build_folder_tree infos) := by
  refine ⟨?_, ?_, ?_⟩
  · intro r hr
    unfold build_folder_tree at hr
    obtain ⟨i, hi, hir⟩ := mem_itemsFileRels_render_tree _ _ _ le_rfl _ r hr
    have h2 := List.mem_filter.mp hi
    exact ⟨i, h2.1, h2.2, hir⟩
  · intro m hm
    unfold build_folder_tree
    rw [itemsHaveChain_render_tree, hasChain_foldersOf]
    have hne : m.isEmpty = false := by
      cases m
      · exact absurd rfl hm
      · rfl
    rw [hne, Bool.false_or, List.any_eq_true]
    constructor
    · rintro ⟨i, hi, hp⟩
      have h2 := List.mem_filter.mp hi
      exact ⟨i, h2.1, h2.2, hp⟩
    · rintro ⟨i, hi, hinc, hp⟩
      exact ⟨i, List.mem_filter.mpr ⟨hi, hinc⟩, hp⟩
  · unfold build_folder_tree
    exact wellOrdered_render_tree _ _ _ le_rfl _

/-- C7 witness: on the spec's scenario only `a.py` is included — it is the
only file leaf, and no `lib` folder node exists since `lib` contains only an
excluded file. -/
theorem C7_witness :
    itemsHaveChain (build_folder_tree scenarioInfos) ["lib"] = false ∧
      (∃ i, i ∈ scenarioInfos ∧ i.decision.«include» = true ∧ i.rel = "a.py") := by
  obtain ⟨h1, h2, _⟩ := C7_tree_structure scenarioInfos
  constructor
  · have hno : ¬ ∃ i, i ∈ scenarioInfos ∧ i.decision.«include» = true ∧
        List.isPrefixOf ["lib"] ((splitPath i.rel).dropLast) = true := by decide
    cases hb : itemsHaveChain (build_folder_tree scenarioInfos) ["lib"]
    · rfl
    · exact absurd ((h2 ["lib"] (by simp)).mp hb) hno
  · exact h1 "a.py" (by decide)

end Rendergit
